import Mathlib

/-
Verification of the bounded thread-safe queue, worker-pool and shutdown
coordination of src/threads.c (TheValiant/valiantdocker).

The C code is shallowly embedded: the ring buffer becomes a list of
optional payloads, the mutating sections of queue_enqueue / queue_dequeue
become pure functions on that state, and the blocking loops (together with
the shutdown flag and condition-variable wakeups) become small-step
machines driven by an environment schedule.  C int fields that the
operations keep in the range 0 .. capacity are modelled as Nat.
-/

namespace ThreadsC

/-- MAX_THREADS from src/threads.c. -/
def MAX_THREADS : Nat := 32

/-- MAX_QUEUE_SIZE from src/threads.c. -/
def MAX_QUEUE_SIZE : Nat := 1000

/-- DEFAULT_NUM_THREADS from src/threads.c. -/
def DEFAULT_NUM_THREADS : Nat := 8

/-- Embedding of the C struct ThreadSafeQueue.  The void** ring buffer is a
list of optional payloads: some a is a slot holding a live item, none is a
slot holding no live item (NULL or never written).  head, tail, count and
capacity are the int fields of the struct; the mutex and the two condition
variables have no data content and appear only in the step machines below. -/
structure ThreadSafeQueue (α : Type) where
  items : List (Option α)
  head : Nat
  tail : Nat
  count : Nat
  capacity : Nat
deriving DecidableEq

variable {α β : Type}

/-- Embedding of queue_create: capacity slots, none of them holding a live
item, head = tail = count = 0. -/
def queue_create (capacity : Nat) : ThreadSafeQueue α :=
  { items := List.replicate capacity none, head := 0, tail := 0, count := 0,
    capacity := capacity }

/-- Embedding of queue_is_empty: count == 0. -/
def queue_is_empty (q : ThreadSafeQueue α) : Bool :=
  q.count == 0

/-- Embedding of queue_is_full: count == capacity. -/
def queue_is_full (q : ThreadSafeQueue α) : Bool :=
  q.count == q.capacity

/-- The mutating section of queue_enqueue (lines 165 to 167 of threads.c):
items[tail] = item; tail = (tail + 1) % capacity; count++. -/
def enqueue_body (q : ThreadSafeQueue α) (item : α) : ThreadSafeQueue α :=
  { q with items := q.items.set q.tail (some item),
           tail := (q.tail + 1) % q.capacity,
           count := q.count + 1 }

/-- The mutating section of queue_dequeue (lines 191 to 194 of threads.c):
item = items[head]; items[head] = NULL; head = (head + 1) % capacity;
count--.  Returns the removed item together with the new state. -/
def dequeue_body (q : ThreadSafeQueue α) : Option α × ThreadSafeQueue α :=
  (q.items.getD q.head none,
   { q with items := q.items.set q.head none,
            head := (q.head + 1) % q.capacity,
            count := q.count - 1 })

/-- Queue states reachable from a freshly created queue of the given
capacity by successful enqueue and dequeue operations only (an enqueue is
successful when the queue is not full, a dequeue when it is not empty;
the blocking paths of the C code perform no mutation). -/
inductive Reachable (cap : Nat) : ThreadSafeQueue α → Prop where
  | init : Reachable cap (queue_create cap)
  | enq (q : ThreadSafeQueue α) (a : α) : Reachable cap q →
      queue_is_full q = false → Reachable cap (enqueue_body q a)
  | deq (q : ThreadSafeQueue α) : Reachable cap q →
      queue_is_empty q = false → Reachable cap (dequeue_body q).2

/-- The ring-buffer invariant of the C queue: the buffer has capacity
slots, count never exceeds capacity, head and tail lie in [0, capacity),
tail marks the slot count places after head (mod capacity), every one of
the count window slots starting at head holds a live item, and every slot
outside that window holds none. -/
def QueueInv (q : ThreadSafeQueue α) : Prop :=
  q.items.length = q.capacity ∧
  q.count ≤ q.capacity ∧
  q.head < q.capacity ∧
  q.tail < q.capacity ∧
  q.tail = (q.head + q.count) % q.capacity ∧
  (∀ i, i < q.count → (q.items.getD ((q.head + i) % q.capacity) none).isSome = true) ∧
  (∀ j, j < q.capacity → (∀ i, i < q.count → j ≠ (q.head + i) % q.capacity) →
      q.items.getD j none = none)

instance (q : ThreadSafeQueue α) [DecidableEq α] : Decidable (QueueInv q) := by
  unfold QueueInv
  infer_instance

/-- The sequence of live slots of the queue, from the slot at head to the
slot just before tail: the abstract FIFO contents of the ring buffer. -/
def liveWindow (q : ThreadSafeQueue α) : List (Option α) :=
  (List.range q.count).map (fun i => q.items.getD ((q.head + i) % q.capacity) none)

theorem getD_set_self (l : List β) (i : Nat) (a d : β) (h : i < l.length) :
    (l.set i a).getD i d = a := by
  simp [List.getD_eq_getElem?_getD, List.getElem?_set_self, h]

theorem getD_set_of_ne (l : List β) (i j : Nat) (a d : β) (h : i ≠ j) :
    (l.set i a).getD j d = l.getD j d := by
  simp [List.getD_eq_getElem?_getD, List.getElem?_set_ne h]

theorem getD_replicate_none (n j : Nat) (d : Option β) (h : j < n) :
    (List.replicate n (none : Option β)).getD j d = none := by
  simp [List.getD_eq_getElem?_getD, List.getElem?_replicate, h]

/-- Two offsets below the capacity that land on the same ring-buffer slot
are equal. -/
theorem window_idx_inj (h i j cap : Nat) (hi : i < cap) (hj : j < cap)
    (he : (h + i) % cap = (h + j) % cap) : i = j := by
  have hmod : i % cap = j % cap := Nat.ModEq.add_left_cancel' h he
  rwa [Nat.mod_eq_of_lt hi, Nat.mod_eq_of_lt hj] at hmod

/-- Advancing head by one and then offsetting by i lands on the slot at
offset i + 1 from the old head. -/
theorem shift_idx (h i cap : Nat) : ((h + 1) % cap + i) % cap = (h + (i + 1)) % cap := by
  rw [Nat.mod_add_mod]
  congr 1
  omega

theorem map_range_congr (f g : Nat → β) (n : Nat) (h : ∀ i, i < n → f i = g i) :
    (List.range n).map f = (List.range n).map g := by
  apply List.map_congr_left
  intro a ha
  exact h a (List.mem_range.mp ha)

theorem map_range_succ_cons (f : Nat → β) (n : Nat) :
    (List.range (n + 1)).map f = f 0 :: (List.range n).map (fun i => f (i + 1)) := by
  rw [List.range_succ_eq_map]
  simp [Function.comp]

theorem queue_create_inv (cap : Nat) (hcap : 0 < cap) :
    QueueInv (queue_create (α := α) cap) := by
  unfold QueueInv queue_create
  dsimp only
  refine ⟨List.length_replicate _ _, Nat.zero_le _, hcap, hcap, by simp, ?_, ?_⟩
  · intro i hi
    exact absurd hi (Nat.not_lt_zero i)
  · intro j hj _
    exact getD_replicate_none cap j none hj

theorem not_full_count_lt (q : ThreadSafeQueue α)
    (hcle : q.count ≤ q.capacity) (hfull : queue_is_full q = false) :
    q.count < q.capacity := by
  have : q.count ≠ q.capacity := by
    intro hc
    rw [queue_is_full, hc] at hfull
    simp at hfull
  omega

theorem not_empty_count_pos (q : ThreadSafeQueue α)
    (hne : queue_is_empty q = false) : 0 < q.count := by
  rcases Nat.eq_zero_or_pos q.count with hc | hc
  · rw [queue_is_empty, hc] at hne
    simp at hne
  · exact hc

theorem enqueue_body_inv (q : ThreadSafeQueue α) (a : α)
    (hinv : QueueInv q) (hfull : queue_is_full q = false) :
    QueueInv (enqueue_body q a) := by
  obtain ⟨hlen, hcle, hh, ht, hte, hlive, hdead⟩ := hinv
  have hcap : 0 < q.capacity := Nat.lt_of_le_of_lt (Nat.zero_le _) hh
  have hclt : q.count < q.capacity := not_full_count_lt q hcle hfull
  have htail_ne : ∀ i, i < q.count → (q.head + i) % q.capacity ≠ q.tail := by
    intro i hi he
    rw [hte] at he
    have := window_idx_inj q.head i q.count q.capacity (by omega) hclt he
    omega
  unfold QueueInv enqueue_body
  dsimp only
  refine ⟨?_, by omega, hh, Nat.mod_lt _ hcap, ?_, ?_, ?_⟩
  · rw [List.length_set]
    exact hlen
  · rw [hte, Nat.mod_add_mod]
    congr 1
  · intro i hi
    rcases Nat.lt_or_ge i q.count with hic | hic
    · rw [getD_set_of_ne _ _ _ _ _ (fun he => htail_ne i hic he.symm)]
      exact hlive i hic
    · have hieq : i = q.count := by omega
      subst hieq
      rw [← hte, getD_set_self _ _ _ _ (by omega)]
      rfl
  · intro j hj hnot
    have hjt : q.tail ≠ j := by
      intro he
      exact hnot q.count (by omega) (by rw [← he, hte])
    rw [getD_set_of_ne _ _ _ _ _ hjt]
    exact hdead j hj (fun i hi => hnot i (by omega))

theorem head_shift_ne (q : ThreadSafeQueue α) (hh : q.head < q.capacity)
    (i : Nat) (hi : i + 1 < q.capacity) :
    (q.head + (i + 1)) % q.capacity ≠ q.head := by
  intro he
  have hcap : 0 < q.capacity := Nat.lt_of_le_of_lt (Nat.zero_le _) hh
  have h2 : (q.head + (i + 1)) % q.capacity = (q.head + 0) % q.capacity := by
    rw [he]
    simp [Nat.mod_eq_of_lt hh]
  have := window_idx_inj q.head (i + 1) 0 q.capacity hi hcap h2
  omega

theorem dequeue_body_inv (q : ThreadSafeQueue α)
    (hinv : QueueInv q) (hne : queue_is_empty q = false) :
    QueueInv (dequeue_body q).2 := by
  obtain ⟨hlen, hcle, hh, ht, hte, hlive, hdead⟩ := hinv
  have hcap : 0 < q.capacity := Nat.lt_of_le_of_lt (Nat.zero_le _) hh
  have hcpos : 0 < q.count := not_empty_count_pos q hne
  unfold QueueInv dequeue_body
  dsimp only
  refine ⟨?_, by omega, Nat.mod_lt _ hcap, ht, ?_, ?_, ?_⟩
  · rw [List.length_set]
    exact hlen
  · rw [shift_idx]
    have hsub : q.count - 1 + 1 = q.count := by omega
    rw [hsub, hte]
  · intro i hi
    rw [shift_idx,
      getD_set_of_ne _ _ _ _ _ (fun he => head_shift_ne q hh i (by omega) he.symm)]
    exact hlive (i + 1) (by omega)
  · intro j hj hnot
    rcases eq_or_ne j q.head with hjh | hjh
    · subst hjh
      exact getD_set_self _ _ _ _ (by omega)
    · rw [getD_set_of_ne _ _ _ _ _ (Ne.symm hjh)]
      apply hdead j hj
      intro i hi he
      rcases i with _ | k
      · exact hjh (by simpa [Nat.mod_eq_of_lt hh] using he)
      · exact hnot k (by omega) (by rw [he, ← shift_idx])

theorem liveWindow_enqueue_body (q : ThreadSafeQueue α) (a : α)
    (hinv : QueueInv q) (hfull : queue_is_full q = false) :
    liveWindow (enqueue_body q a) = liveWindow q ++ [some a] := by
  obtain ⟨hlen, hcle, hh, ht, hte, hlive, hdead⟩ := hinv
  have hcap : 0 < q.capacity := Nat.lt_of_le_of_lt (Nat.zero_le _) hh
  have hclt : q.count < q.capacity := not_full_count_lt q hcle hfull
  have htail_ne : ∀ i, i < q.count → (q.head + i) % q.capacity ≠ q.tail := by
    intro i hi he
    rw [hte] at he
    have := window_idx_inj q.head i q.count q.capacity (by omega) hclt he
    omega
  unfold liveWindow enqueue_body
  dsimp only
  rw [List.range_succ, List.map_append]
  congr 1
  · apply map_range_congr
    intro i hi
    exact getD_set_of_ne _ _ _ _ _ (fun he => htail_ne i hi he.symm)
  · rw [List.map_singleton, ← hte, getD_set_self _ _ _ _ (by omega)]

theorem liveWindow_dequeue_body (q : ThreadSafeQueue α)
    (hinv : QueueInv q) (hne : queue_is_empty q = false) :
    liveWindow q = (dequeue_body q).1 :: liveWindow (dequeue_body q).2 := by
  obtain ⟨hlen, hcle, hh, ht, hte, hlive, hdead⟩ := hinv
  have hcap : 0 < q.capacity := Nat.lt_of_le_of_lt (Nat.zero_le _) hh
  have hcpos : 0 < q.count := not_empty_count_pos q hne
  obtain ⟨k, hk⟩ : ∃ k, q.count = k + 1 := ⟨q.count - 1, by omega⟩
  unfold liveWindow dequeue_body
  dsimp only
  rw [hk, map_range_succ_cons]
  congr 1
  · simp [Nat.mod_eq_of_lt hh]
  · have hk1 : k + 1 - 1 = k := by omega
    rw [hk1]
    apply map_range_congr
    intro i hi
    rw [shift_idx,
      getD_set_of_ne _ _ _ _ _ (fun he => head_shift_ne q hh i (by omega) he.symm)]

/-- A queue operation of a producer (an enqueue of one item) or a consumer
(a dequeue). -/
inductive QOp (α : Type) where
  | enq (item : α)
  | deq
deriving DecidableEq

/-- Runs a sequence of queue operations, all of them on their success path:
an enqueue applies the mutating section of queue_enqueue and requires the
queue not to be full, a dequeue applies the mutating section of
queue_dequeue and requires the queue not to be empty.  Returns none when
some operation could not take its success path, otherwise the final queue
together with the values returned by the dequeues, in order. -/
def runPure (q : ThreadSafeQueue α) :
    List (QOp α) → Option (ThreadSafeQueue α × List (Option α))
  | [] => some (q, [])
  | QOp.enq a :: ops =>
    if queue_is_full q then none
    else runPure (enqueue_body q a) ops
  | QOp.deq :: ops =>
    if queue_is_empty q then none
    else
      match runPure (dequeue_body q).2 ops with
      | some (q1, outs) => some (q1, (dequeue_body q).1 :: outs)
      | none => none

/-- The items enqueued by a sequence of operations, in order. -/
def enqueuedOf : List (QOp α) → List α
  | [] => []
  | QOp.enq a :: ops => a :: enqueuedOf ops
  | QOp.deq :: ops => enqueuedOf ops

/-- Simulation of the ring buffer by a plain list: along any successful
run, the live window of the start state followed by all enqueued items
equals the dequeued outputs followed by the live window of the end
state. -/
theorem runPure_sim (ops : List (QOp α)) :
    ∀ (q q1 : ThreadSafeQueue α) (outs : List (Option α)), QueueInv q →
      runPure q ops = some (q1, outs) →
      QueueInv q1 ∧ liveWindow q ++ (enqueuedOf ops).map some = outs ++ liveWindow q1 := by
  induction ops with
  | nil =>
    intro q q1 outs hinv hrun
    rw [runPure] at hrun
    injection hrun with hrun
    injection hrun with h1 h2
    subst h1
    subst h2
    exact ⟨hinv, by simp [enqueuedOf]⟩
  | cons op ops ih =>
    intro q q1 outs hinv hrun
    cases op with
    | enq a =>
      rw [runPure] at hrun
      by_cases hfull : queue_is_full q = true
      · rw [if_pos hfull] at hrun
        exact absurd hrun (by simp)
      · have hfull' : queue_is_full q = false := by
          simpa using hfull
        rw [if_neg hfull] at hrun
        obtain ⟨hinv1, heq⟩ := ih (enqueue_body q a) q1 outs
          (enqueue_body_inv q a hinv hfull') hrun
        refine ⟨hinv1, ?_⟩
        rw [enqueuedOf, List.map_cons, liveWindow_enqueue_body q a hinv hfull'] at *
        rw [← heq]
        simp
    | deq =>
      rw [runPure] at hrun
      by_cases hemp : queue_is_empty q = true
      · rw [if_pos hemp] at hrun
        exact absurd hrun (by simp)
      · have hemp' : queue_is_empty q = false := by
          simpa using hemp
        rw [if_neg hemp] at hrun
        rcases hmatch : runPure (dequeue_body q).2 ops with _ | p
        · rw [hmatch] at hrun
          exact absurd hrun (by simp)
        · obtain ⟨q2, outs2⟩ := p
          rw [hmatch] at hrun
          injection hrun with hrun
          injection hrun with h1 h2
          subst h1
          obtain ⟨hinv1, heq⟩ := ih (dequeue_body q).2 q2 outs2
            (dequeue_body_inv q hinv hemp') hmatch
          refine ⟨hinv1, ?_⟩
          rw [← h2, enqueuedOf, liveWindow_dequeue_body q hinv hemp']
          simpa using heq

/-- From a freshly created queue, the dequeued outputs followed by the
remaining live window equal the enqueued items: dequeue order is enqueue
order. -/
theorem runPure_fifo (cap : Nat) (ops : List (QOp α))
    (q1 : ThreadSafeQueue α) (outs : List (Option α)) (hcap : 0 < cap)
    (hrun : runPure (queue_create cap) ops = some (q1, outs)) :
    outs ++ liveWindow q1 = (enqueuedOf ops).map some := by
  obtain ⟨_, heq⟩ := runPure_sim ops (queue_create cap) q1 outs
    (queue_create_inv cap hcap) hrun
  have hlw : liveWindow (queue_create (α := α) cap) = [] := by
    simp [liveWindow, queue_create]
  rw [hlw] at heq
  simpa using heq.symm

/-- Embedding of the C struct Task: task_id, priority and the two
timeval fields (collapsed to integer timestamps, which the queue never
inspects). -/
structure Task where
  task_id : Int
  priority : Int
  start_time : Int
  end_time : Int
deriving DecidableEq

/-- Reassigns the priority field of a task, leaving every other field
unchanged. -/
def set_task_priority (pr : Task → Int) (t : Task) : Task :=
  { t with priority := pr t }

/-- Maps a function over every payload slot of the queue, leaving head,
tail, count and capacity unchanged. -/
def mapQueue (f : α → β) (q : ThreadSafeQueue α) : ThreadSafeQueue β :=
  { items := q.items.map (Option.map f), head := q.head, tail := q.tail,
    count := q.count, capacity := q.capacity }

/-- Maps a function over the item of an enqueue operation. -/
def QOp.mapItem (f : α → β) : QOp α → QOp β
  | QOp.enq a => QOp.enq (f a)
  | QOp.deq => QOp.deq

theorem getD_map_none (l : List (Option α)) (f : α → β) (i : Nat) :
    (l.map (Option.map f)).getD i none = Option.map f (l.getD i none) := by
  simp only [List.getD_eq_getElem?_getD, List.getElem?_map]
  rcases h : l[i]? with _ | v
  · simp [h]
  · simp [h]

theorem mapQueue_enqueue_body (f : α → β) (q : ThreadSafeQueue α) (a : α) :
    enqueue_body (mapQueue f q) (f a) = mapQueue f (enqueue_body q a) := by
  unfold enqueue_body mapQueue
  simp [List.map_set]

theorem mapQueue_dequeue_body (f : α → β) (q : ThreadSafeQueue α) :
    dequeue_body (mapQueue f q)
      = (Option.map f (dequeue_body q).1, mapQueue f (dequeue_body q).2) := by
  unfold dequeue_body mapQueue
  dsimp only
  rw [getD_map_none, List.map_set]
  rfl

/-- runPure is natural in the payload type: transporting every item along
a function before running gives the transported results.  In particular
the positions at which items come out never depend on the payloads. -/
theorem runPure_map (f : α → β) (ops : List (QOp α)) :
    ∀ q : ThreadSafeQueue α,
      runPure (mapQueue f q) (ops.map (QOp.mapItem f))
        = (runPure q ops).map
            (fun r => (mapQueue f r.1, r.2.map (Option.map f))) := by
  induction ops with
  | nil =>
    intro q
    simp [runPure]
  | cons op ops ih =>
    intro q
    cases op with
    | enq a =>
      show runPure (mapQueue f q) (QOp.enq (f a) :: ops.map (QOp.mapItem f)) = _
      rw [runPure, runPure]
      have hfull : queue_is_full (mapQueue f q) = queue_is_full q := rfl
      rw [hfull]
      by_cases h : queue_is_full q = true
      · simp [h]
      · have h' : queue_is_full q = false := by simpa using h
        rw [h']
        simp only [Bool.false_eq_true, if_false]
        rw [mapQueue_enqueue_body, ih]
    | deq =>
      show runPure (mapQueue f q) (QOp.deq :: ops.map (QOp.mapItem f)) = _
      rw [runPure, runPure]
      have hemp : queue_is_empty (mapQueue f q) = queue_is_empty q := rfl
      rw [hemp]
      by_cases h : queue_is_empty q = true
      · simp [h]
      · have h' : queue_is_empty q = false := by simpa using h
        rw [h']
        simp only [Bool.false_eq_true, if_false]
        rw [mapQueue_dequeue_body, ih]
        rcases hrun : runPure (dequeue_body q).2 ops with _ | p
        · simp
        · obtain ⟨q2, outs2⟩ := p
          simp

theorem mapQueue_queue_create (f : α → β) (cap : Nat) :
    mapQueue f (queue_create cap) = queue_create cap := by
  unfold mapQueue queue_create
  simp

/-- Program counter of one call to queue_enqueue (threads.c lines 153 to
174).  atLoop is the head of the while loop at line 157 with the lock
held; inWait is the thread blocked inside pthread_cond_wait at line 158;
finished r q is the call having returned r (0 for success, -1 for
cancelled) with the queue in state q. -/
inductive EnqPhase (α : Type) where
  | atLoop (q : ThreadSafeQueue α)
  | inWait (q : ThreadSafeQueue α)
  | finished (ret : Int) (q : ThreadSafeQueue α)
deriving DecidableEq

/-- Program counter of one call to queue_dequeue (threads.c lines 177 to
201).  finished r q is the call having returned r (none for the NULL
drain signal, some item otherwise) with the queue in state q. -/
inductive DeqPhase (α : Type) where
  | atLoop (q : ThreadSafeQueue α)
  | inWait (q : ThreadSafeQueue α)
  | finished (ret : Option α) (q : ThreadSafeQueue α)
deriving DecidableEq

/-- One scheduling step of queue_enqueue.  sh is the value of the global
shutdown_requested flag at this instant, wake tells whether a
condition-variable wakeup (signal or spurious) is delivered to the thread
if it is blocked.  At the loop head the code tests only queue_is_full:
when full it calls pthread_cond_wait, otherwise it runs the insertion and
returns 0.  A blocked thread stays blocked until a wakeup arrives; when
pthread_cond_wait returns, the code tests shutdown_requested and returns
-1 if it is set, otherwise it goes back to the loop head. -/
def enq_step (item : α) (sh wake : Bool) : EnqPhase α → EnqPhase α
  | EnqPhase.atLoop q =>
    if queue_is_full q then EnqPhase.inWait q
    else EnqPhase.finished 0 (enqueue_body q item)
  | EnqPhase.inWait q =>
    if wake then
      (if sh then EnqPhase.finished (-1) q else EnqPhase.atLoop q)
    else EnqPhase.inWait q
  | EnqPhase.finished r q => EnqPhase.finished r q

/-- One scheduling step of queue_dequeue.  At the loop head the code
first tests queue_is_empty; when empty it tests shutdown_requested and
returns NULL if set, otherwise it calls pthread_cond_wait; when not empty
it runs the removal and returns the item.  A blocked thread stays blocked
until a wakeup arrives, after which control returns to the loop head. -/
def deq_step (sh wake : Bool) : DeqPhase α → DeqPhase α
  | DeqPhase.atLoop q =>
    if queue_is_empty q then
      (if sh then DeqPhase.finished none q else DeqPhase.inWait q)
    else DeqPhase.finished (dequeue_body q).1 (dequeue_body q).2
  | DeqPhase.inWait q =>
    if wake then DeqPhase.atLoop q else DeqPhase.inWait q
  | DeqPhase.finished r q => DeqPhase.finished r q

/-- Iterates enq_step, reading the shutdown flag and the wakeup delivery
for step n from a schedule. -/
def enq_iter (item : α) (sch : Nat → Bool × Bool) (c : EnqPhase α) : Nat → EnqPhase α
  | 0 => c
  | n + 1 => enq_step item (sch n).1 (sch n).2 (enq_iter item sch c n)

/-- Iterates deq_step under a schedule. -/
def deq_iter (sch : Nat → Bool × Bool) (c : DeqPhase α) : Nat → DeqPhase α
  | 0 => c
  | n + 1 => deq_step (sch n).1 (sch n).2 (deq_iter sch c n)

/-- True once the call has returned. -/
def EnqPhase.isFinished : EnqPhase α → Bool
  | EnqPhase.finished _ _ => true
  | _ => false

/-- True once the call has returned. -/
def DeqPhase.isFinished : DeqPhase α → Bool
  | DeqPhase.finished _ _ => true
  | _ => false

theorem enq_step_finished_stable (item : α) (sh wake : Bool) (c : EnqPhase α)
    (h : c.isFinished = true) : (enq_step item sh wake c).isFinished = true := by
  cases c with
  | atLoop q => simp [EnqPhase.isFinished] at h
  | inWait q => simp [EnqPhase.isFinished] at h
  | finished r q => simp [enq_step, EnqPhase.isFinished]

theorem deq_step_finished_stable (sh wake : Bool) (c : DeqPhase α)
    (h : c.isFinished = true) : (deq_step sh wake c).isFinished = true := by
  cases c with
  | atLoop q => simp [DeqPhase.isFinished] at h
  | inWait q => simp [DeqPhase.isFinished] at h
  | finished r q => simp [deq_step, DeqPhase.isFinished]

theorem enq_iter_finished_mono (item : α) (sch : Nat → Bool × Bool) (c : EnqPhase α)
    (n m : Nat) (hnm : n ≤ m) (h : (enq_iter item sch c n).isFinished = true) :
    (enq_iter item sch c m).isFinished = true := by
  obtain ⟨k, hk⟩ := Nat.exists_eq_add_of_le hnm
  subst hk
  clear hnm
  induction k with
  | zero => exact h
  | succ k ih =>
    have : n + (k + 1) = (n + k) + 1 := by omega
    rw [this, enq_iter]
    exact enq_step_finished_stable _ _ _ _ ih

theorem deq_iter_finished_mono (sch : Nat → Bool × Bool) (c : DeqPhase α)
    (n m : Nat) (hnm : n ≤ m) (h : (deq_iter sch c n).isFinished = true) :
    (deq_iter sch c m).isFinished = true := by
  obtain ⟨k, hk⟩ := Nat.exists_eq_add_of_le hnm
  subst hk
  clear hnm
  induction k with
  | zero => exact h
  | succ k ih =>
    have : n + (k + 1) = (n + k) + 1 := by omega
    rw [this, deq_iter]
    exact deq_step_finished_stable _ _ _ ih

/-- Along any schedule, a call to queue_enqueue starting at the loop head
on queue q is, at every instant, still at the loop head on q, blocked on
q, finished successfully on some state, or finished cancelled with the
queue exactly as at the start. -/
theorem enq_iter_cases (item : α) (sch : Nat → Bool × Bool) (q : ThreadSafeQueue α) :
    ∀ n, enq_iter item sch (EnqPhase.atLoop q) n = EnqPhase.atLoop q ∨
      enq_iter item sch (EnqPhase.atLoop q) n = EnqPhase.inWait q ∨
      (∃ q2, enq_iter item sch (EnqPhase.atLoop q) n = EnqPhase.finished 0 q2) ∨
      enq_iter item sch (EnqPhase.atLoop q) n = EnqPhase.finished (-1) q := by
  intro n
  induction n with
  | zero => exact Or.inl rfl
  | succ n ih =>
    rw [enq_iter]
    rcases ih with h | h | ⟨q2, h⟩ | h <;> rw [h]
    · by_cases hfull : queue_is_full q = true
      · exact Or.inr (Or.inl (by simp [enq_step, hfull]))
      · exact Or.inr (Or.inr (Or.inl ⟨enqueue_body q item, by simp [enq_step, hfull]⟩))
    · rcases hw : (sch n).2 with _ | _
      · exact Or.inr (Or.inl (by simp [enq_step]))
      · rcases hs : (sch n).1 with _ | _
        · exact Or.inl (by simp [enq_step])
        · exact Or.inr (Or.inr (Or.inr (by simp [enq_step])))
    · exact Or.inr (Or.inr (Or.inl ⟨q2, by simp [enq_step]⟩))
    · exact Or.inr (Or.inr (Or.inr (by simp [enq_step])))

/-- With the shutdown flag set, a dequeue at the loop head returns in one
step: NULL when the queue is empty, the head item otherwise. -/
theorem deq_step_shutdown_finishes (q : ThreadSafeQueue α) (wake : Bool) :
    (deq_step true wake (DeqPhase.atLoop q)).isFinished = true := by
  by_cases h : queue_is_empty q = true
  · simp [deq_step, h, DeqPhase.isFinished]
  · simp [deq_step, h, DeqPhase.isFinished]

/-- An enqueue that starts on a full queue and is never delivered any
condition-variable wakeup stays at the loop head or blocked forever. -/
theorem enq_iter_no_wakeup (item : α) (sch : Nat → Bool × Bool)
    (hw : ∀ n, (sch n).2 = false) (q : ThreadSafeQueue α)
    (hfull : queue_is_full q = true) :
    ∀ n, enq_iter item sch (EnqPhase.atLoop q) n = EnqPhase.atLoop q ∨
      enq_iter item sch (EnqPhase.atLoop q) n = EnqPhase.inWait q := by
  intro n
  induction n with
  | zero => exact Or.inl rfl
  | succ n ih =>
    rw [enq_iter]
    rcases ih with h | h <;> rw [h]
    · exact Or.inr (by simp [enq_step, hfull])
    · exact Or.inr (by simp [enq_step, hw n])

/-- With the shutdown flag permanently set, an enqueue that starts on a
full queue is, from step 1 on, either still blocked or already returned. -/
theorem enq_iter_full_shape (item : α) (sch : Nat → Bool × Bool)
    (hsh : ∀ n, (sch n).1 = true) (q : ThreadSafeQueue α)
    (hfull : queue_is_full q = true) :
    ∀ n, 1 ≤ n → enq_iter item sch (EnqPhase.atLoop q) n = EnqPhase.inWait q ∨
      (enq_iter item sch (EnqPhase.atLoop q) n).isFinished = true := by
  intro n hn
  induction n with
  | zero => omega
  | succ m ih =>
    rcases Nat.eq_zero_or_pos m with hm | hm
    · subst hm
      left
      show enq_step item (sch 0).1 (sch 0).2 (EnqPhase.atLoop q) = EnqPhase.inWait q
      simp [enq_step, hfull]
    · rcases ih (by omega) with h | h
      · rw [enq_iter, h]
        by_cases hw : (sch m).2 = true
        · right
          rw [hsh m, hw]
          simp [enq_step, EnqPhase.isFinished]
        · left
          have hw' : (sch m).2 = false := by simpa using hw
          simp [enq_step, hw']
      · right
        rw [enq_iter]
        exact enq_step_finished_stable _ _ _ _ h

/-- A schedule in which the shutdown flag is set at every step and no
condition-variable wakeup is ever delivered. -/
def shutdown_no_wakeup : Nat → Bool × Bool := fun _ => (true, false)

/-- A schedule in which the shutdown flag is set at every step and a
wakeup is delivered at every step. -/
def shutdown_all_wakeups : Nat → Bool × Bool := fun _ => (true, true)

/-- A full queue of capacity 1 holding one item. -/
def full_one_queue : ThreadSafeQueue Nat := enqueue_body (queue_create 1) 3

/-- Observable actions of the identity-finding preamble of worker_thread
(threads.c lines 252 to 260): taking and releasing the stats lock and
comparing one slot of the shared thread-handle table with the calling
thread's own handle. -/
inductive WorkerEvent where
  | lock_stats
  | compare (slot : Nat)
  | unlock_stats
deriving DecidableEq

/-- Embedding of pthread_equal on thread handles, modelled as numbers. -/
def pthread_equal (a b : Nat) : Bool := a == b

/-- The for loop of worker_thread lines 254 to 259: starting at the given
slot with the given number of iterations left, compare worker_threads[slot]
with the calling thread's handle; stop at the first match (break) and
return its index, or -1 when no slot matches; also return the list of
comparisons performed, in order. -/
def find_id_from (handles : Nat → Nat) (self : Nat) :
    Nat → Nat → List WorkerEvent × Int
  | _, 0 => ([], -1)
  | i, fuel + 1 =>
    if pthread_equal (handles i) self then ([WorkerEvent.compare i], Int.ofNat i)
    else
      let r := find_id_from handles self (i + 1) fuel
      (WorkerEvent.compare i :: r.1, r.2)

/-- The identity-acquisition preamble of worker_thread (lines 252 to 260):
lock the stats mutex, scan MAX_THREADS slots of the shared thread-handle
table for the calling thread's handle, unlock, and use the found index as
the worker's thread_id. -/
def worker_find_id (handles : Nat → Nat) (self : Nat) : List WorkerEvent × Int :=
  let r := find_id_from handles self 0 MAX_THREADS
  (WorkerEvent.lock_stats :: r.1 ++ [WorkerEvent.unlock_stats], r.2)

theorem find_id_from_finds (handles : Nat → Nat) (self : Nat) :
    ∀ (fuel s i : Nat), s ≤ i → i < s + fuel → handles i = self →
      (∀ j, s ≤ j → j < i → handles j ≠ self) →
      (find_id_from handles self s fuel).2 = Int.ofNat i := by
  intro fuel
  induction fuel with
  | zero =>
    intro s i hsi hif _ _
    omega
  | succ fuel ih =>
    intro s i hsi hif hmatch hbefore
    rw [find_id_from]
    by_cases heq : pthread_equal (handles s) self = true
    · have hs : handles s = self := by
        simpa [pthread_equal] using heq
      have hsieq : s = i := by
        rcases Nat.lt_or_ge s i with hlt | hge
        · exact absurd hs (hbefore s (Nat.le_refl s) hlt)
        · omega
      subst hsieq
      simp [heq]
    · have hsne : s ≠ i := by
        intro he
        subst he
        exact heq (by simp [pthread_equal, hmatch])
      rw [if_neg heq]
      exact ih (s + 1) i (by omega) (by omega) hmatch
        (fun j hj1 hj2 => hbefore j (by omega) hj2)

theorem find_id_from_events_cons (handles : Nat → Nat) (self i fuel : Nat) :
    ∃ t, (find_id_from handles self i (fuel + 1)).1 = WorkerEvent.compare i :: t := by
  rw [find_id_from]
  by_cases h : pthread_equal (handles i) self = true
  · exact ⟨[], by simp [h]⟩
  · exact ⟨(find_id_from handles self (i + 1) fuel).1, by simp [h]⟩

/-- SIGINT on Linux. -/
def SIGINT : Int := 2

/-- SIGTERM on Linux. -/
def SIGTERM : Int := 15

/-- The observable effects of one invocation of a signal handler. -/
inductive HandlerEffect where
  | print_message
  | set_shutdown_flag
deriving DecidableEq

/-- Embedding of signal_handler (threads.c lines 539 to 544): on SIGINT or
SIGTERM it first calls printf, an output side effect performed from
async-signal context, and then sets shutdown_requested = 1; on any other
signal it does nothing. -/
def signal_handler (sig : Int) : List HandlerEffect :=
  if sig = SIGINT ∨ sig = SIGTERM then
    [HandlerEffect.print_message, HandlerEffect.set_shutdown_flag]
  else []

/-- Embedding of the C struct WorkerStats, with exact rational numbers in
place of C doubles: the update logic below uses only comparisons, addition
and the constants 0 and 1000, on which rational arithmetic agrees with
double arithmetic for the sample values used here. -/
structure WorkerStats where
  thread_id : Int
  tasks_completed : Int
  tasks_failed : Int
  total_processing_time : ℚ
  max_processing_time : ℚ
  min_processing_time : ℚ
deriving DecidableEq

/-- A worker-stats slot as initialize_app_context leaves it (threads.c
lines 449 and 480 to 483): calloc zeroes every field, then thread_id is
assigned and min_processing_time is set to the high initial value
1000.0. -/
def stats_init (i : Int) : WorkerStats :=
  { thread_id := i, tasks_completed := 0, tasks_failed := 0,
    total_processing_time := 0, max_processing_time := 0,
    min_processing_time := 1000 }

/-- The statistics update of worker_thread (threads.c lines 287 to 298)
for one completed task with measured processing time t: increment
tasks_completed, add t to total_processing_time, raise
max_processing_time to t when t exceeds it, and set min_processing_time
to t when the current minimum equals 0 or t is below it. -/
def stats_update (s : WorkerStats) (t : ℚ) : WorkerStats :=
  { s with
    tasks_completed := s.tasks_completed + 1,
    total_processing_time := s.total_processing_time + t,
    max_processing_time :=
      if t > s.max_processing_time then t else s.max_processing_time,
    min_processing_time :=
      if s.min_processing_time = 0 ∨ t < s.min_processing_time then t
      else s.min_processing_time }

/-- C1: for every queue state reachable from a freshly created queue of
capacity c > 0 by any sequence of successful queue_enqueue and
queue_dequeue operations, 0 ≤ count ≤ capacity holds, head and tail lie
in [0, capacity), and exactly count slots between head and tail (mod
capacity) hold live items (QueueInv additionally records that every slot
outside that window is empty). -/
theorem C1_reachable_queue_invariant (cap : Nat) (q : ThreadSafeQueue α)
    (hcap : 0 < cap) (hr : Reachable cap q) :
    (0 : Int) ≤ (q.count : Int) ∧ QueueInv q := by
  refine ⟨by omega, ?_⟩
  induction hr with
  | init => exact queue_create_inv cap hcap
  | enq q a hr hfull ih => exact enqueue_body_inv q a ih hfull
  | deq q hr hne ih => exact dequeue_body_inv q ih hne

theorem C1_reachable_queue_invariant_witness :
    (0 : Int) ≤ (((dequeue_body (enqueue_body (queue_create (α := Nat) 2) 5)).2).count : Int) ∧
      QueueInv ((dequeue_body (enqueue_body (queue_create (α := Nat) 2) 5)).2) :=
  C1_reachable_queue_invariant 2 _ (by decide)
    (Reachable.deq _ (Reachable.enq _ 5 Reachable.init (by decide)) (by decide))

/-- C2: along any successful run of enqueues interleaved with dequeues on
one queue, the dequeued items are exactly the enqueued items in enqueue
order (the outputs are the first outs.length enqueued items), and
reassigning every task's priority field in an arbitrary way changes
neither success nor the order of task ids dequeued. -/
theorem C2_fifo_priority_independent (cap : Nat) (ops : List (QOp Task))
    (q1 : ThreadSafeQueue Task) (outs : List (Option Task)) (pr : Task → Int)
    (hcap : 0 < cap) (hrun : runPure (queue_create cap) ops = some (q1, outs)) :
    outs = ((enqueuedOf ops).map some).take outs.length ∧
    ∃ q2 outs2,
      runPure (queue_create cap) (ops.map (QOp.mapItem (set_task_priority pr)))
          = some (q2, outs2) ∧
      outs2.map (Option.map Task.task_id) = outs.map (Option.map Task.task_id) := by
  constructor
  · have hf := runPure_fifo cap ops q1 outs hcap hrun
    rw [← hf, List.take_left]
  · refine ⟨mapQueue (set_task_priority pr) q1,
      outs.map (Option.map (set_task_priority pr)), ?_, ?_⟩
    · have hm := runPure_map (set_task_priority pr) ops (queue_create cap)
      rw [mapQueue_queue_create] at hm
      rw [hm, hrun]
      rfl
    · rw [List.map_map]
      apply List.map_congr_left
      intro o _
      cases o with
      | none => rfl
      | some t => rfl

/-- Operation sequence used to exercise C2: enqueue a task of priority 10,
enqueue a task of priority 5, then dequeue twice. -/
def c2_ops : List (QOp Task) :=
  [QOp.enq ⟨1, 10, 0, 0⟩, QOp.enq ⟨2, 5, 0, 0⟩, QOp.deq, QOp.deq]

/-- The dequeue outputs of c2_ops on a fresh capacity-2 queue. -/
def c2_outs : List (Option Task) := [some ⟨1, 10, 0, 0⟩, some ⟨2, 5, 0, 0⟩]

/-- The final queue state of c2_ops on a fresh capacity-2 queue. -/
def c2_q1 : ThreadSafeQueue Task := ⟨[none, none], 0, 0, 0, 2⟩

theorem C2_fifo_priority_independent_witness :
    c2_outs = ((enqueuedOf c2_ops).map some).take c2_outs.length ∧
    ∃ q2 outs2,
      runPure (queue_create 2) (c2_ops.map (QOp.mapItem (set_task_priority (fun _ => 1))))
          = some (q2, outs2) ∧
      outs2.map (Option.map Task.task_id) = c2_outs.map (Option.map Task.task_id) :=
  C2_fifo_priority_independent 2 c2_ops c2_q1 c2_outs (fun _ => 1)
    (by decide) (by decide)

/-- C3: on a queue satisfying the ring-buffer invariant, a successful
enqueue (count < capacity) writes the item into the slot at tail, advances
tail by one modulo capacity, leaves head unchanged and increments count by
exactly one; a successful dequeue (count > 0) returns the live item in the
slot at head, advances head by one modulo capacity, leaves tail unchanged
and decrements count by exactly one. -/
theorem C3_success_paths (q : ThreadSafeQueue α) (a : α) (hinv : QueueInv q) :
    (q.count < q.capacity →
      (enqueue_body q a).items.getD q.tail none = some a ∧
      (enqueue_body q a).tail = (q.tail + 1) % q.capacity ∧
      (enqueue_body q a).head = q.head ∧
      ((enqueue_body q a).count : Int) = (q.count : Int) + 1) ∧
    (0 < q.count →
      (dequeue_body q).1 = q.items.getD q.head none ∧
      ((dequeue_body q).1).isSome = true ∧
      (dequeue_body q).2.head = (q.head + 1) % q.capacity ∧
      (dequeue_body q).2.tail = q.tail ∧
      ((dequeue_body q).2.count : Int) = (q.count : Int) - 1) := by
  obtain ⟨hlen, hcle, hh, ht, hte, hlive, hdead⟩ := hinv
  constructor
  · intro _
    refine ⟨?_, rfl, rfl, ?_⟩
    · exact getD_set_self q.items q.tail (some a) none (by omega)
    · show ((q.count + 1 : Nat) : Int) = (q.count : Int) + 1
      omega
  · intro hc
    refine ⟨rfl, ?_, rfl, rfl, ?_⟩
    · show (q.items.getD q.head none).isSome = true
      have := hlive 0 hc
      simpa [Nat.mod_eq_of_lt hh] using this
    · show ((q.count - 1 : Nat) : Int) = (q.count : Int) - 1
      omega

/-- Queue used to exercise C3: capacity 2, one item. -/
def c3_queue : ThreadSafeQueue Nat := enqueue_body (queue_create 2) 9

theorem C3_success_paths_witness :
    ((enqueue_body c3_queue 7).count : Int) = (c3_queue.count : Int) + 1 ∧
    ((dequeue_body c3_queue).2.count : Int) = (c3_queue.count : Int) - 1 :=
  ⟨(((C3_success_paths c3_queue 7 (by decide)).1) (by decide)).2.2.2,
   (((C3_success_paths c3_queue 7 (by decide)).2) (by decide)).2.2.2.2⟩

/-- C4: whenever a call to queue_enqueue, run under any schedule of
shutdown-flag values and wakeup deliveries, returns the cancelled result
-1, the queue is exactly as it was when the call began (same items, head,
tail and count, so the item was not inserted and the caller still owns
it), and -1 is distinct from the success result 0. -/
theorem C4_cancelled_enqueue_no_effect (item : α) (sch : Nat → Bool × Bool)
    (q q1 : ThreadSafeQueue α) (n : Nat)
    (hrun : enq_iter item sch (EnqPhase.atLoop q) n = EnqPhase.finished (-1) q1) :
    q1 = q ∧ ((-1 : Int) ≠ 0) := by
  rcases enq_iter_cases item sch q n with h | h | ⟨q2, h⟩ | h
  · rw [h] at hrun
    exact absurd hrun (by simp)
  · rw [h] at hrun
    exact absurd hrun (by simp)
  · rw [h] at hrun
    injection hrun with h0 _
    exact absurd h0 (by decide)
  · rw [h] at hrun
    injection hrun with _ hq
    exact ⟨hq.symm, by decide⟩

theorem C4_cancelled_enqueue_no_effect_witness :
    full_one_queue = full_one_queue ∧ ((-1 : Int) ≠ 0) :=
  C4_cancelled_enqueue_no_effect 7 shutdown_all_wakeups full_one_queue
    full_one_queue 2 (by decide)

/-- C5: a call to queue_dequeue made while the shutdown flag is set and
count = 0 returns NULL in its very first step from the loop head, without
ever reaching the waiting state and with the queue unchanged. -/
theorem C5_dequeue_shutdown_empty_immediate (q : ThreadSafeQueue α)
    (hempty : q.count = 0) (wake : Bool) :
    deq_step true wake (DeqPhase.atLoop q) = DeqPhase.finished none q := by
  have he : queue_is_empty q = true := by
    simp [queue_is_empty, hempty]
  simp [deq_step, he]

theorem C5_dequeue_shutdown_empty_immediate_witness :
    deq_step true false (DeqPhase.atLoop (queue_create (α := Nat) 3))
      = DeqPhase.finished none (queue_create 3) :=
  C5_dequeue_shutdown_empty_immediate (queue_create 3) (by decide) false

/-- C6 counterexample: the claim that once the shutdown flag is set every
thread blocked in queue_enqueue returns within a bounded number of
scheduling steps is false.  A producer blocked inside pthread_cond_wait on
a full capacity-1 queue, under the schedule in which the shutdown flag is
set at every step but no condition-variable wakeup is ever delivered
(queue_enqueue signals only one waiter per transition and nothing signals
not_full after shutdown), never returns: there is no step count at which
the call has finished. -/
theorem C6_counterexample_blocked_forever :
    ¬ ∃ (n : Nat) (r : Int) (q1 : ThreadSafeQueue Nat),
        enq_iter 0 shutdown_no_wakeup (EnqPhase.atLoop full_one_queue) n
          = EnqPhase.finished r q1 := by
  rintro ⟨n, r, q1, h⟩
  rcases enq_iter_no_wakeup 0 shutdown_no_wakeup (fun _ => rfl) full_one_queue
      (by decide) n with h2 | h2 <;> rw [h2] at h <;> exact absurd h (by simp)

/-- C6 amended: once the shutdown flag is set and stays set, a call to
queue_dequeue returns within one step, a call to queue_enqueue on a
non-full queue returns within one step, and a thread blocked in
queue_enqueue returns within one step of the next condition-variable
wakeup delivered to it; so every blocked or future call finishes by step
k + 1, where k ≥ 1 is any step at which a wakeup is delivered.  Absent a
wakeup, a blocked enqueue may remain blocked indefinitely (see the
counterexample). -/
theorem C6_shutdown_return_after_wakeup (sch : Nat → Bool × Bool)
    (hsh : ∀ n, (sch n).1 = true) (k : Nat) (hk : 1 ≤ k) (hwk : (sch k).2 = true)
    (q : ThreadSafeQueue α) (item : α) :
    (enq_iter item sch (EnqPhase.atLoop q) (k + 1)).isFinished = true ∧
    (deq_iter sch (DeqPhase.atLoop q) (k + 1)).isFinished = true := by
  constructor
  · by_cases hfull : queue_is_full q = true
    · rcases enq_iter_full_shape item sch hsh q hfull k hk with h | h
      · rw [enq_iter, h, hsh k, hwk]
        simp [enq_step, EnqPhase.isFinished]
      · exact enq_iter_finished_mono item sch _ k (k + 1) (by omega) h
    · have h1 : (enq_iter item sch (EnqPhase.atLoop q) 1).isFinished = true := by
        show (enq_step item (sch 0).1 (sch 0).2 (EnqPhase.atLoop q)).isFinished = true
        simp [enq_step, hfull, EnqPhase.isFinished]
      exact enq_iter_finished_mono item sch _ 1 (k + 1) (by omega) h1
  · have h1 : (deq_iter sch (DeqPhase.atLoop q) 1).isFinished = true := by
      show (deq_step (sch 0).1 (sch 0).2 (DeqPhase.atLoop q)).isFinished = true
      rw [hsh 0]
      exact deq_step_shutdown_finishes q (sch 0).2
    exact deq_iter_finished_mono sch _ 1 (k + 1) (by omega) h1

theorem C6_shutdown_return_after_wakeup_witness :
    (enq_iter 0 shutdown_all_wakeups
        (EnqPhase.atLoop (queue_create (α := Nat) 1)) 2).isFinished = true ∧
    (deq_iter shutdown_all_wakeups
        (DeqPhase.atLoop (queue_create (α := Nat) 1)) 2).isFinished = true :=
  C6_shutdown_return_after_wakeup shutdown_all_wakeups (fun _ => rfl) 1
    (by decide) rfl (queue_create 1) 0

/-- C7 counterexample: the claim that a worker performs no runtime lookup
against the shared thread-handle table and no lock acquisition to find its
WorkerStats slot is false.  On a concrete handle table the identity
preamble of worker_thread emits a stats-lock acquisition and handle
comparisons: its event trace is not empty. -/
theorem C7_counterexample_lookup_and_lock :
    WorkerEvent.lock_stats ∈ (worker_find_id (fun j => j + 10) 12).1 ∧
    WorkerEvent.compare 0 ∈ (worker_find_id (fun j => j + 10) 12).1 ∧
    (worker_find_id (fun j => j + 10) 12).1 ≠ [] := by
  decide

/-- C7 amended: a worker determines its identity at startup by scanning
the shared thread-handle table under the stats lock (its first action is
taking the stats lock and it compares slot 0 of the table with its own
handle); when slot i with i < MAX_THREADS is the first slot holding the
worker's own handle, the identity found is i.  No identity value is
supplied at creation: every worker receives the same context pointer. -/
theorem C7_worker_id_by_table_scan (handles : Nat → Nat) (self : Nat) (i : Nat)
    (hi : i < MAX_THREADS) (hmatch : handles i = self)
    (hbefore : ∀ j, j < i → handles j ≠ self) :
    (worker_find_id handles self).1.head? = some WorkerEvent.lock_stats ∧
    WorkerEvent.compare 0 ∈ (worker_find_id handles self).1 ∧
    (worker_find_id handles self).2 = Int.ofNat i := by
  refine ⟨rfl, ?_, ?_⟩
  · obtain ⟨t, ht⟩ := find_id_from_events_cons handles self 0 (MAX_THREADS - 1)
    have h32 : MAX_THREADS - 1 + 1 = MAX_THREADS := by decide
    rw [h32] at ht
    show WorkerEvent.compare 0 ∈
      WorkerEvent.lock_stats :: (find_id_from handles self 0 MAX_THREADS).1
        ++ [WorkerEvent.unlock_stats]
    rw [ht]
    simp
  · show (find_id_from handles self 0 MAX_THREADS).2 = Int.ofNat i
    exact find_id_from_finds handles self MAX_THREADS 0 i (Nat.zero_le i)
      (by omega) hmatch (fun j _ hj => hbefore j hj)

theorem C7_worker_id_by_table_scan_witness :
    (worker_find_id (fun j => j + 10) 12).1.head? = some WorkerEvent.lock_stats ∧
    WorkerEvent.compare 0 ∈ (worker_find_id (fun j => j + 10) 12).1 ∧
    (worker_find_id (fun j => j + 10) 12).2 = Int.ofNat 2 :=
  C7_worker_id_by_table_scan (fun j => j + 10) 12 2 (by decide) rfl (by decide)

/-- C8: the handler for SIGINT or SIGTERM does not have setting the
shutdown flag as its only effect: it first calls printf, which is an
additional side effect and is not async-signal-safe, and then sets the
flag; on other signals it does nothing.  This evaluates the embedded
handler at the failing inputs. -/
theorem C8_handler_extra_side_effect :
    signal_handler SIGINT ≠ [HandlerEffect.set_shutdown_flag] ∧
    HandlerEffect.print_message ∈ signal_handler SIGINT ∧
    signal_handler SIGINT
      = [HandlerEffect.print_message, HandlerEffect.set_shutdown_flag] ∧
    signal_handler SIGTERM
      = [HandlerEffect.print_message, HandlerEffect.set_shutdown_flag] ∧
    signal_handler 9 = [] := by
  decide

/-- C9: the min_processing_time convention of the claim fails on the code.
The sentinel is initialized to 1000.0 but the update guard tests min == 0:
a first sample of 2000 does not overwrite the sentinel (min stays 1000),
and after samples 0 then 5 the code reports minimum 5 although the
minimum of all samples seen is 0.  tasks_completed, total_processing_time
and max_processing_time are updated as the claim states. -/
theorem C9_min_sentinel_mismatch :
    (stats_update (stats_init 0) 2000).min_processing_time = 1000 ∧
    (stats_update (stats_update (stats_init 0) 0) 5).min_processing_time = 5 ∧
    (stats_update (stats_update (stats_init 0) 0) 5).min_processing_time ≠ 0 ∧
    (stats_update (stats_update (stats_init 0) 0) 5).tasks_completed = 2 ∧
    (stats_update (stats_update (stats_init 0) 0) 5).total_processing_time = 5 ∧
    (stats_update (stats_update (stats_init 0) 0) 5).max_processing_time = 5 := by
  refine ⟨?_, ?_, ?_, ?_, ?_, ?_⟩ <;> norm_num [stats_update, stats_init]

/-- C10: queue_enqueue examines the shutdown flag only after returning
from pthread_cond_wait, while queue_dequeue tests it before ever waiting.
With the shutdown flag set: an enqueue that begins on a full queue moves
from the loop head to the waiting state (it does not return -1
immediately), stays blocked while no wakeup is delivered, and returns -1
in the step in which a wakeup arrives; a dequeue that begins on an empty
queue returns NULL immediately from the loop head. -/
theorem C10_flag_check_asymmetry (qf qe : ThreadSafeQueue α) (item : α)
    (hfull : queue_is_full qf = true) (hempty : qe.count = 0) (wake : Bool) :
    enq_step item true wake (EnqPhase.atLoop qf) = EnqPhase.inWait qf ∧
    enq_step item true false (EnqPhase.inWait qf) = EnqPhase.inWait qf ∧
    enq_step item true true (EnqPhase.inWait qf) = EnqPhase.finished (-1) qf ∧
    deq_step true wake (DeqPhase.atLoop qe) = DeqPhase.finished none qe := by
  have he : queue_is_empty qe = true := by
    simp [queue_is_empty, hempty]
  exact ⟨by simp [enq_step, hfull], by simp [enq_step], by simp [enq_step],
    by simp [deq_step, he]⟩

theorem C10_flag_check_asymmetry_witness :
    enq_step 7 true false (EnqPhase.atLoop full_one_queue)
      = EnqPhase.inWait full_one_queue ∧
    enq_step 7 true false (EnqPhase.inWait full_one_queue)
      = EnqPhase.inWait full_one_queue ∧
    enq_step 7 true true (EnqPhase.inWait full_one_queue)
      = EnqPhase.finished (-1) full_one_queue ∧
    deq_step true false (DeqPhase.atLoop (queue_create (α := Nat) 2))
      = DeqPhase.finished none (queue_create 2) :=
  C10_flag_check_asymmetry full_one_queue (queue_create 2) 7
    (by decide) (by decide) false

end ThreadsC
